import Mathlib

/-!
Verification of the cevitxe synchronization core: a shallow embedding of the
clock algebra, the `DocumentSync` per-peer state machine, and the
`StoreManager` connection lifecycle, with theorems checking the
natural-language specification against the code.

Conventions of the embedding:
- An `Immutable.Map<string, number>` vector clock is an association list
  `List (Actor × Nat)`; lookups return the first binding, matching the
  single-binding-per-key semantics of the library map.
- A possibly-`undefined` TypeScript value is an `Option`.
- Methods that call `this.send(msg)` return the list of messages sent, in
  order; methods that can `throw` return an `Option SyncError` alongside the
  state they leave behind at the throw point.
-/

set_option autoImplicit false

namespace Cevitxe

/-- Actor identifiers are strings. -/
abbrev Actor := String

/-- A vector clock: a finite map from actor id to sequence number, embedded as
an association list whose first binding for a key is the map entry. -/
abbrev Clock := List (Actor × Nat)

/-- Lookup of the entry for key `k` in a clock (the first binding wins, as in
`Immutable.Map.get`). -/
def clockLookup : Clock → Actor → Option Nat
  | [], _ => none
  | p :: rest, k => if p.1 = k then some p.2 else clockLookup rest k

/-- Value of a clock at a key, with absent keys read as zero (the
`Immutable.Map.get(key, 0)` convention used by the clock algebra). -/
def clockGet (c : Clock) (k : Actor) : Nat :=
  (clockLookup c k).getD 0

/-- The merger passed to `mergeWith` in `DocumentSync.updateClock`:
`largestWins = (x, y) => Math.max(x, y)`. -/
def largestWins (x y : Nat) : Nat := max x y

/-- Embedding of `Immutable.Map.mergeWith(f, other)`: keys are the union of the
two key sets; a key present in both maps gets `f oldValue newValue`. -/
def mergeWith (f : Nat → Nat → Nat) (a b : Clock) : Clock :=
  (a.map (fun p =>
    match clockLookup b p.1 with
    | some v => (p.1, f p.2 v)
    | none => p)) ++
  b.filter (fun p => (clockLookup a p.1).isNone)

/-- Modelled from the spec: the clock comparison `lessOrEqual(a, b)` from
`lib/lessOrEqual` (whose source file is not in the repository snapshot):
true iff for every actor `k` present in `a`, `a[k] ≤ b[k]`, absent keys
treated as zero. -/
def lessOrEqual (a b : Clock) : Bool :=
  a.all (fun p => decide (p.2 ≤ clockGet b p.1))

/-- Wellformedness of an embedded clock: its keys are distinct, as they are in
an `Immutable.Map`. -/
def clockWF (c : Clock) : Prop := (c.map Prod.fst).Nodup

instance (c : Clock) : Decidable (clockWF c) := by
  unfold clockWF; infer_instance

/-- Pointwise order on clocks with absent keys read as zero. -/
def clockLe (a b : Clock) : Prop := ∀ k, clockGet a k ≤ clockGet b k

-- Basic lemmas about lookup and merge.

theorem clockLookup_append (a b : Clock) (k : Actor) :
    clockLookup (a ++ b) k = ((clockLookup a k).orElse (fun _ => clockLookup b k)) := by
  induction a with
  | nil => simp [clockLookup]
  | cons p rest ih =>
      by_cases h : p.1 = k
      · simp [clockLookup, h, Option.orElse]
      · simp [clockLookup, h, ih]

theorem clockLookup_mapMerge (f : Nat → Nat → Nat) (a b : Clock) (k : Actor) :
    clockLookup (a.map (fun p =>
      match clockLookup b p.1 with
      | some v => (p.1, f p.2 v)
      | none => p)) k =
    (clockLookup a k).map (fun x =>
      match clockLookup b k with
      | some y => f x y
      | none => x) := by
  induction a with
  | nil => simp [clockLookup]
  | cons p rest ih =>
      by_cases h : p.1 = k
      · subst h
        cases hb : clockLookup b p.1 <;> simp [clockLookup, hb]
      · cases hb : clockLookup b p.1 <;> simp [clockLookup, hb, h, ih]

theorem clockLookup_filterMerge (a b : Clock) (k : Actor) :
    clockLookup (b.filter (fun p => (clockLookup a p.1).isNone)) k =
    (if (clockLookup a k).isNone then clockLookup b k else none) := by
  induction b with
  | nil => simp [clockLookup]
  | cons q rest ih =>
      by_cases hq : (clockLookup a q.1).isNone
      · by_cases h : q.1 = k
        · subst h
          simp [List.filter, hq, clockLookup, ih]
        · simp [List.filter, hq, clockLookup, h, ih]
      · by_cases h : q.1 = k
        · subst h
          simp only [List.filter, hq]
          simp only [Bool.false_eq_true, if_false] at *
          rw [ih]
          simp_all
        · simp only [List.filter, hq]
          simp only [Bool.false_eq_true, if_false] at *
          rw [ih]
          simp [clockLookup, h]

theorem clockLookup_mergeWith (f : Nat → Nat → Nat) (a b : Clock) (k : Actor) :
    clockLookup (mergeWith f a b) k =
      match clockLookup a k, clockLookup b k with
      | some x, some y => some (f x y)
      | some x, none => some x
      | none, o => o := by
  unfold mergeWith
  rw [clockLookup_append, clockLookup_mapMerge, clockLookup_filterMerge]
  cases ha : clockLookup a k <;> cases hb : clockLookup b k <;>
    simp [Option.orElse, Option.isNone]

theorem clockGet_mergeWith_max (a b : Clock) (k : Actor) :
    clockGet (mergeWith largestWins a b) k = max (clockGet a k) (clockGet b k) := by
  unfold clockGet
  rw [clockLookup_mergeWith]
  cases ha : clockLookup a k <;> cases hb : clockLookup b k <;>
    simp [largestWins, Option.getD]

theorem clockLe_mergeWith_left (a b : Clock) : clockLe a (mergeWith largestWins a b) := by
  intro k
  rw [clockGet_mergeWith_max]
  exact le_max_left _ _

theorem clockLe_refl (a : Clock) : clockLe a a := fun _ => le_rfl

theorem clockLe_trans {a b c : Clock} (h1 : clockLe a b) (h2 : clockLe b c) :
    clockLe a c := fun k => le_trans (h1 k) (h2 k)

/-!
The `DocumentSync` class (`src/DocumentSync.ts`). The class keeps one local
document (held behind an `Automerge.WatchableDoc`) in sync with one peer. The
CRDT library it delegates to is out of scope of the specification, so it is
embedded as an abstract interface `CRDT`; the `WatchableDoc` handler registry
is embedded as a list of function identities together with a counter
`nextBind` supplying the fresh identity that each JavaScript
`this.docChanged.bind(this)` expression creates.
-/

/-- Errors thrown by `DocumentSync.validateDoc`: `ERR_NOCLOCK` (a `TypeError`)
and `ERR_OLDCLOCK` (a `RangeError`). -/
inductive SyncError where
  | noClock
  | oldClock
  deriving DecidableEq, Repr

/-- A sync-protocol message `{clock, changes?}` as produced by `send`. -/
structure Message (Change : Type) where
  clock : Clock
  changes : Option (List Change)
  deriving DecidableEq, Repr

/-- A received message, destructured by `receive({clock, changes})`; the
`if (clock)` guard in `receive` admits an absent clock, so both fields are
optional here. -/
structure RecvMessage (Change : Type) where
  clock : Option Clock
  changes : Option (List Change)
  deriving DecidableEq, Repr

/-- Abstract interface to the CRDT library (out of scope of the spec):
`applyChanges` is `watchableDoc.applyChanges`, `clockOf` is
`getClockFromDoc` (reading `opSet.clock` from the backend state, which is
absent when the document is not a live replica), and `getMissingChanges` is
`A.Backend.getMissingChanges`. -/
structure CRDT (Doc Change : Type) where
  applyChanges : Doc → List Change → Doc
  clockOf : Doc → Option Clock
  getMissingChanges : Doc → Clock → List Change

/-- State of one `DocumentSync` instance together with the document it
watches: the clock pair `{ours, theirs}` (the `theirs` slot is `Option`al
because `getClock('theirs')` is typed `Clock | undefined` and
`maybeSendChanges` guards against `undefined`), the watchable document, and
the watchable document's handler registry (`handlers`, a list of registered
function identities) with the counter `nextBind` producing the identity of
the next `.bind(this)` call. -/
structure SyncState (Doc : Type) where
  ours : Clock
  theirs : Option Clock
  doc : Doc
  handlers : List Nat
  nextBind : Nat
  deriving DecidableEq, Repr

section DocumentSync

variable {Doc Change : Type}

/-- The `DocumentSync` constructor: stores the watchable document and sets
`this.clock = { ours: Map(), theirs: Map() }` — note that `theirs` is
initialized to an *empty clock*, not left `undefined`. -/
def initSync (doc : Doc) : SyncState Doc :=
  { ours := [], theirs := some [], doc := doc, handlers := [], nextBind := 0 }

/-- `updateClock(theirs, clock)`: merge the new clock into the stored one,
keeping the maximum sequence number per node (`oldClock.mergeWith(largestWins,
clock)` with `oldClock = this.clock[which] || Map()`). -/
def updateClockTheirs (s : SyncState Doc) (clock : Clock) : SyncState Doc :=
  { s with theirs := some (mergeWith largestWins (s.theirs.getD []) clock) }

/-- `updateClock(ours, clock)`: same pointwise-max merge on the `ours` slot. -/
def updateClockOurs (s : SyncState Doc) (clock : Clock) : SyncState Doc :=
  { s with ours := mergeWith largestWins s.ours clock }

/-- `validateDoc(clock)`: throw `ERR_NOCLOCK` when the clock is absent, then
throw `ERR_OLDCLOCK` when `!lessOrEqual(ourClock, clock)`; otherwise return
normally. It reads `this.getClock(ours)` and mutates nothing. -/
def validateDoc (s : SyncState Doc) (clock : Option Clock) : Except SyncError Unit :=
  match clock with
  | none => .error .noClock
  | some c =>
      if lessOrEqual s.ours c then .ok () else .error .oldClock

/-- `sendChanges(changes)`: read the document clock, `send({clock, changes})`,
then `updateClock(ours)` (merging the document clock into `ours`). Returns
the new state and the message sent. -/
def sendChanges (C : CRDT Doc Change) (s : SyncState Doc) (changes : List Change) :
    SyncState Doc × List (Message Change) :=
  let clock := (C.clockOf s.doc).getD []
  (updateClockOurs s clock, [{ clock := clock, changes := some changes }])

/-- `maybeSendChanges()`: if `getClock(theirs)` is `undefined`, do nothing;
otherwise compute `getMissingChanges(ourState, theirClock)` and, when
non-empty, `sendChanges(changes)`. -/
def maybeSendChanges (C : CRDT Doc Change) (s : SyncState Doc) :
    SyncState Doc × List (Message Change) :=
  match s.theirs with
  | none => (s, [])
  | some theirClock =>
      let changes := C.getMissingChanges s.doc theirClock
      if changes.length > 0 then sendChanges C s changes else (s, [])

/-- `requestChanges(clock)`: `send({clock})` — a bare-clock message with no
`changes` field. No state is modified. -/
def requestChanges (clock : Clock) : Message Change :=
  { clock := clock, changes := none }

/-- `maybeRequestChanges(clock)`: when `!lessOrEqual(clock, ourClock)`, call
`requestChanges(clock)`; otherwise send nothing. Returns the messages sent;
no state is modified. -/
def maybeRequestChanges (s : SyncState Doc) (clock : Clock) : List (Message Change) :=
  if lessOrEqual clock s.ours then [] else [requestChanges clock]

/-- `receive({clock, changes})`: record their clock when present; apply
`changes` via the watchable document when present, else `maybeSendChanges()`;
finally return `watchableDoc.get()`. Result: (new state, messages sent,
returned document). -/
def receive (C : CRDT Doc Change) (s : SyncState Doc) (m : RecvMessage Change) :
    SyncState Doc × List (Message Change) × Doc :=
  let s1 := match m.clock with
    | some c => updateClockTheirs s c
    | none => s
  match m.changes with
  | some chs =>
      let s2 := { s1 with doc := C.applyChanges s1.doc chs }
      (s2, [], s2.doc)
  | none =>
      let r := maybeSendChanges C s1
      (r.1, r.2, r.1.doc)

/-- `open()`: read the document clock, `validateDoc`, `requestChanges`
(sending the bare clock), `updateClock(ours, clock)`, then register
`this.docChanged.bind(this)` — a fresh function identity — with the
watchable document. On a `validateDoc` throw, the state is returned as it
stood (nothing had been mutated yet). -/
def openSync (C : CRDT Doc Change) (s : SyncState Doc) :
    SyncState Doc × List (Message Change) × Option SyncError :=
  let clock := C.clockOf s.doc
  match validateDoc s clock with
  | .error e => (s, [], some e)
  | .ok _ =>
      let c := clock.getD []
      let s1 := updateClockOurs s c
      let s2 := { s1 with handlers := s1.handlers ++ [s1.nextBind],
                          nextBind := s1.nextBind + 1 }
      (s2, [requestChanges c], none)

/-- `close()`: call `unregisterHandler(this.docChanged.bind(this))`. The
`.bind(this)` expression creates a *new* function identity (`s.nextBind`),
and `WatchableDoc.unregisterHandler` removes by identity, so only entries
equal to that fresh identity are filtered out of the registry. -/
def closeSync (s : SyncState Doc) : SyncState Doc :=
  { s with handlers := s.handlers.filter (fun h => h ≠ s.nextBind),
           nextBind := s.nextBind + 1 }

/-- `docChanged()` (the handler registered on the watchable document): read
the document clock, `validateDoc`, `maybeSendChanges`, `maybeRequestChanges`
(against the possibly-updated `ours`), then `updateClock(ours, clock)`. On a
`validateDoc` throw, the state is returned unchanged. -/
def docChanged (C : CRDT Doc Change) (s : SyncState Doc) :
    SyncState Doc × List (Message Change) × Option SyncError :=
  let clock := C.clockOf s.doc
  match validateDoc s clock with
  | .error e => (s, [], some e)
  | .ok _ =>
      let c := clock.getD []
      let r := maybeSendChanges C s
      let m2 := maybeRequestChanges r.1 c
      (updateClockOurs r.1 c, r.2 ++ m2, none)

end DocumentSync

section Ops

variable {Doc Change : Type}

/-- One invocation of a public `DocumentSync` operation, used to state
properties of arbitrary finite operation sequences. -/
inductive SyncOp (Change : Type) where
  | openOp
  | closeOp
  | docChangedOp
  | receiveOp (m : RecvMessage Change)

/-- The state reached by running one operation (discarding the messages sent
and any error thrown: a throwing operation leaves the state it had reached at
the throw point, which for `open` and `docChanged` is the input state). -/
def runOp (C : CRDT Doc Change) (s : SyncState Doc) : SyncOp Change → SyncState Doc
  | .openOp => (openSync C s).1
  | .closeOp => closeSync s
  | .docChangedOp => (docChanged C s).1
  | .receiveOp m => (receive C s m).1

/-- The state reached by running a sequence of operations in order. -/
def runOps (C : CRDT Doc Change) (s : SyncState Doc) (ops : List (SyncOp Change)) :
    SyncState Doc :=
  ops.foldl (runOp C) s

theorem ours_le_sendChanges (C : CRDT Doc Change) (s : SyncState Doc)
    (chs : List Change) : clockLe s.ours (sendChanges C s chs).1.ours := by
  unfold sendChanges updateClockOurs
  exact clockLe_mergeWith_left _ _

theorem ours_le_maybeSendChanges (C : CRDT Doc Change) (s : SyncState Doc) :
    clockLe s.ours (maybeSendChanges C s).1.ours := by
  unfold maybeSendChanges
  cases h : s.theirs with
  | none => exact clockLe_refl _
  | some tc =>
      by_cases hc : (C.getMissingChanges s.doc tc).length > 0
      · simpa [hc] using ours_le_sendChanges C s (C.getMissingChanges s.doc tc)
      · simp [hc]
        exact clockLe_refl _

theorem ours_le_runOp (C : CRDT Doc Change) (s : SyncState Doc) (op : SyncOp Change) :
    clockLe s.ours (runOp C s op).ours := by
  cases op with
  | openOp =>
      unfold runOp openSync
      cases hv : validateDoc s (C.clockOf s.doc) with
      | error e => simp [hv]; exact clockLe_refl _
      | ok u =>
          simp [hv, updateClockOurs]
          exact clockLe_mergeWith_left _ _
  | closeOp => exact clockLe_refl _
  | docChangedOp =>
      unfold runOp docChanged
      cases hv : validateDoc s (C.clockOf s.doc) with
      | error e => simp [hv]; exact clockLe_refl _
      | ok u =>
          simp [hv, updateClockOurs]
          exact clockLe_trans (ours_le_maybeSendChanges C s)
            (clockLe_mergeWith_left _ _)
  | receiveOp m =>
      unfold runOp receive
      cases hch : m.changes with
      | some chs =>
          cases hc : m.clock <;> simp [hch, hc, updateClockTheirs] <;> exact clockLe_refl _
      | none =>
          cases hc : m.clock with
          | none => simp [hch, hc]; exact ours_le_maybeSendChanges C s
          | some c =>
              simp [hch, hc]
              have h1 : (updateClockTheirs s c).ours = s.ours := rfl
              have := ours_le_maybeSendChanges C (updateClockTheirs s c)
              rwa [h1] at this

theorem ours_le_runOps (C : CRDT Doc Change) (s : SyncState Doc)
    (ops : List (SyncOp Change)) : clockLe s.ours (runOps C s ops).ours := by
  induction ops generalizing s with
  | nil => exact clockLe_refl _
  | cons op rest ih =>
      exact clockLe_trans (ours_le_runOp C s op) (ih (runOp C s op))

end Ops

/-!
Concrete instances used to exercise the definitions at specific inputs: a
trivial CRDT over a unit document, a CRDT whose document has no clock (a
historical snapshot), and a counter CRDT whose document is a `Nat` with clock
`{a: n}` and whose missing changes against a remote clock are unit changes
making up the difference.
-/

/-- Trivial CRDT: a unit document with an empty clock and no changes ever
missing. -/
def unitCRDT : CRDT Unit Unit :=
  { applyChanges := fun d _ => d
    clockOf := fun _ => some []
    getMissingChanges := fun _ _ => [] }

/-- CRDT whose document carries no clock, as a historical snapshot does. -/
def snapshotCRDT : CRDT Unit Unit :=
  { applyChanges := fun d _ => d
    clockOf := fun _ => none
    getMissingChanges := fun _ _ => [] }

/-- Counter CRDT: the document is a `Nat` `n` with clock `{a: n}`; applying
`k` changes adds `k`; against a remote clock holding `m` for actor `a`, the
missing changes are `n - m` unit changes. -/
def natDocCRDT : CRDT Nat Unit :=
  { applyChanges := fun d chs => d + chs.length
    clockOf := fun d => some [("a", d)]
    getMissingChanges := fun d c => List.replicate (d - clockGet c "a") () }

/-!
The `StoreManager` class (`src/StoreManager.ts`). Only the connection
lifecycle and the event emitter matter to the claims, so the embedding keeps:
a registry of every `Connection` object ever constructed (indexed by creation
order, holding the flag set by `Connection.close()`, whose internals are out
of scope here), the `connections` map from `peerId` to registry index, the
presence flags for `this.repo` and `this.store`, the listeners currently
registered on the `EventEmitter`, the log of events emitted, and the log of
(listener, event) deliveries that `emit` performed.
-/

/-- Events emitted by `StoreManager` (`ready`, `change`, `peer`, `close`). -/
inductive SMEvent where
  | ready
  | changeEv
  | peerEv
  | closeEv
  deriving DecidableEq, Repr

/-- State of a `StoreManager` for the connection-lifecycle claims. -/
structure SMState where
  connRegistry : List Bool
  connections : List (String × Nat)
  repo : Bool
  store : Bool
  listeners : List Nat
  emitted : List SMEvent
  delivered : List (Nat × SMEvent)
  deriving DecidableEq, Repr

/-- `EventEmitter.emit(e)`: append to the emission log and invoke every
currently registered listener with the event. -/
def smEmit (m : SMState) (e : SMEvent) : SMState :=
  { m with emitted := m.emitted ++ [e],
           delivered := m.delivered ++ m.listeners.map (fun l => (l, e)) }

/-- Lookup of `this.connections[peerId]` (first binding wins; a JavaScript
object has at most one binding per key). -/
def connLookup : List (String × Nat) → String → Option Nat
  | [], _ => none
  | q :: rest, p => if q.1 = p then some q.2 else connLookup rest p

/-- Assignment `this.connections[peerId] = connection`: replace the binding
when the key exists, otherwise append it. -/
def assocSet (l : List (String × Nat)) (k : String) (v : Nat) : List (String × Nat) :=
  if l.any (fun q => decide (q.1 = k)) then
    l.map (fun q => if q.1 = k then (k, v) else q)
  else l ++ [(k, v)]

/-- `removePeer(peerId)`: if a Connection is recorded under the peerId, call
its `close()` (set its registry flag), then delete the map entry. -/
def removePeer (m : SMState) (p : String) : SMState :=
  let m1 := match connLookup m.connections p with
    | some cid => { m with connRegistry := m.connRegistry.set cid true }
    | none => m
  { m1 with connections := m1.connections.filter (fun q => decide (q.1 ≠ p)) }

/-- `addPeer(peer, discoveryKey)`: return early unless both `this.store` and
`this.repo` are present; otherwise construct a new Connection (a fresh
registry slot, not yet closed), record it under the peerId, and emit the
`peer` event. The prior Connection under that peerId, if any, is only
overwritten. -/
def addPeer (m : SMState) (p : String) : SMState :=
  if m.store && m.repo then
    let cid := m.connRegistry.length
    let m1 := { m with connRegistry := m.connRegistry ++ [false],
                       connections := assocSet m.connections p cid }
    smEmit m1 .peerEv
  else m

/-- `close()`: `removeAllListeners()`, then `removePeer` for every key of the
connections map (the key list is snapshotted first, as `Object.keys` does),
then `this.connections = {}`, then release (`delete`) the repo and the store,
and finally `emit('close')`. -/
def smClose (m : SMState) : SMState :=
  let m1 := { m with listeners := [] }
  let m2 := (m1.connections.map Prod.fst).foldl removePeer m1
  let m3 := { m2 with connections := [], repo := false, store := false }
  smEmit m3 .closeEv

-- Supporting lemmas about the connection lifecycle.

theorem removePeer_frame (m : SMState) (p : String) :
    (removePeer m p).listeners = m.listeners ∧
    (removePeer m p).emitted = m.emitted ∧
    (removePeer m p).delivered = m.delivered ∧
    (removePeer m p).connRegistry.length = m.connRegistry.length := by
  unfold removePeer
  cases h : connLookup m.connections p <;> simp [List.length_set]

theorem foldlRemovePeer_frame (ks : List String) (m : SMState) :
    (ks.foldl removePeer m).listeners = m.listeners ∧
    (ks.foldl removePeer m).emitted = m.emitted ∧
    (ks.foldl removePeer m).delivered = m.delivered ∧
    (ks.foldl removePeer m).connRegistry.length = m.connRegistry.length := by
  induction ks generalizing m with
  | nil => simp
  | cons k rest ih =>
      have h1 := removePeer_frame m k
      have h2 := ih (removePeer m k)
      simp only [List.foldl_cons]
      exact ⟨h2.1.trans h1.1, h2.2.1.trans h1.2.1, h2.2.2.1.trans h1.2.2.1,
        h2.2.2.2.trans h1.2.2.2⟩

theorem removePeer_true_stays (m : SMState) (p : String) (cid : Nat)
    (h : m.connRegistry.get? cid = some true) :
    (removePeer m p).connRegistry.get? cid = some true := by
  have hlt : cid < m.connRegistry.length := List.get?_eq_some.mp h |>.1
  unfold removePeer
  cases hl : connLookup m.connections p with
  | none => simpa using h
  | some c =>
      simp only
      rw [List.get?_set_of_lt _ _ (by simpa using hlt)]
      by_cases hc : c = cid
      · simp [hc]
      · simpa [hc] using h

theorem foldlRemovePeer_true_stays (ks : List String) (m : SMState) (cid : Nat)
    (h : m.connRegistry.get? cid = some true) :
    ((ks.foldl removePeer m)).connRegistry.get? cid = some true := by
  induction ks generalizing m with
  | nil => simpa using h
  | cons k rest ih => exact ih _ (removePeer_true_stays m k cid h)

theorem connLookup_filter_ne (l : List (String × Nat)) (k p : String) (h : k ≠ p) :
    connLookup (l.filter (fun q => decide (q.1 ≠ k))) p = connLookup l p := by
  induction l with
  | nil => rfl
  | cons q rest ih =>
      rw [List.filter_cons]
      by_cases hq : q.1 = k
      · have hd : (decide (q.1 ≠ k)) = false := by simp [hq]
        rw [hd]
        simp only [Bool.false_eq_true, if_false]
        rw [ih]
        have hqp : q.1 ≠ p := by rw [hq]; exact h
        simp [connLookup, hqp]
      · have hd : (decide (q.1 ≠ k)) = true := by simp [hq]
        rw [hd]
        simp only [if_true]
        by_cases hp : q.1 = p
        · simp [connLookup, hp]
        · simp only [connLookup, if_neg hp]
          simpa using ih

theorem removePeer_closes (m : SMState) (p : String) (cid : Nat)
    (hp : connLookup m.connections p = some cid)
    (hcid : cid < m.connRegistry.length) :
    (removePeer m p).connRegistry.get? cid = some true := by
  unfold removePeer
  rw [hp]
  simp only
  rw [List.get?_set_of_lt _ _ (by simpa using hcid)]
  simp

theorem removePeer_other_lookup (m : SMState) (k p : String) (h : k ≠ p) :
    connLookup (removePeer m k).connections p = connLookup m.connections p := by
  unfold removePeer
  cases hl : connLookup m.connections k <;>
    simpa using connLookup_filter_ne m.connections k p h

theorem foldlRemovePeer_closes (ks : List String) (m : SMState) (p : String)
    (cid : Nat) (hmem : p ∈ ks) (hp : connLookup m.connections p = some cid)
    (hcid : cid < m.connRegistry.length) :
    ((ks.foldl removePeer m)).connRegistry.get? cid = some true := by
  induction ks generalizing m with
  | nil => cases hmem
  | cons k rest ih =>
      simp only [List.foldl_cons]
      by_cases hk : k = p
      · subst hk
        exact foldlRemovePeer_true_stays rest _ cid (removePeer_closes m k cid hp hcid)
      · rcases List.mem_cons.mp hmem with he | hr
        · exact absurd he.symm hk
        · exact ih (removePeer m k) hr
            (by rw [removePeer_other_lookup m k p hk]; exact hp)
            (by rw [(removePeer_frame m k).2.2.2]; exact hcid)

theorem connLookup_mem_keys (l : List (String × Nat)) (p : String) (cid : Nat)
    (h : connLookup l p = some cid) : p ∈ l.map Prod.fst := by
  induction l with
  | nil => simp [connLookup] at h
  | cons q rest ih =>
      by_cases hq : q.1 = p
      · simp [hq]
      · simp [connLookup, hq] at h
        simp [ih h]

theorem connLookup_append (a b : List (String × Nat)) (k : String) :
    connLookup (a ++ b) k = ((connLookup a k).orElse (fun _ => connLookup b k)) := by
  induction a with
  | nil => simp [connLookup]
  | cons q rest ih =>
      by_cases h : q.1 = k
      · simp [connLookup, h, Option.orElse]
      · simp [connLookup, h, ih]

theorem connLookup_map_set (l : List (String × Nat)) (k : String) (v : Nat) :
    connLookup (l.map (fun q => if q.1 = k then (k, v) else q)) k =
      (connLookup l k).map (fun _ => v) := by
  induction l with
  | nil => simp [connLookup]
  | cons q rest ih =>
      by_cases h : q.1 = k
      · simp [connLookup, h]
      · simp [connLookup, h, ih]

theorem connLookup_isSome_of_any (l : List (String × Nat)) (k : String)
    (h : l.any (fun q => decide (q.1 = k)) = true) : (connLookup l k).isSome := by
  induction l with
  | nil => simp at h
  | cons q rest ih =>
      simp only [List.any_cons, Bool.or_eq_true] at h
      by_cases hq : q.1 = k
      · simp [connLookup, hq]
      · rcases h with h1 | h2
        · exact absurd (by simpa using h1) hq
        · simp [connLookup, hq, ih h2]

theorem connLookup_eq_none_of_not_any (l : List (String × Nat)) (k : String)
    (h : l.any (fun q => decide (q.1 = k)) = false) : connLookup l k = none := by
  induction l with
  | nil => rfl
  | cons q rest ih =>
      simp only [List.any_cons, Bool.or_eq_false_iff] at h
      have hq : ¬q.1 = k := by simpa using h.1
      simp [connLookup, hq, ih h.2]

theorem connLookup_assocSet (l : List (String × Nat)) (k : String) (v : Nat) :
    connLookup (assocSet l k v) k = some v := by
  unfold assocSet
  by_cases h : l.any (fun q => decide (q.1 = k)) = true
  · rw [if_pos h, connLookup_map_set]
    have := connLookup_isSome_of_any l k h
    cases hl : connLookup l k with
    | none => rw [hl] at this; simp at this
    | some x => simp
  · rw [if_neg h, connLookup_append,
      connLookup_eq_none_of_not_any l k (Bool.eq_false_iff.mpr h)]
    simp [connLookup, Option.orElse]

theorem filter_key_map_set (l : List (String × Nat)) (k : String) (v : Nat) :
    (l.map (fun q => if q.1 = k then (k, v) else q)).filter
        (fun q => decide (q.1 = k)) =
      (l.filter (fun q => decide (q.1 = k))).map (fun _ => (k, v)) := by
  induction l with
  | nil => rfl
  | cons q rest ih =>
      by_cases h : q.1 = k
      · simp [List.filter_cons, h, ih]
      · simp [List.filter_cons, h, ih]

theorem filter_key_length_of_nodup (l : List (String × Nat)) (k : String)
    (hnd : (l.map Prod.fst).Nodup)
    (hany : l.any (fun q => decide (q.1 = k)) = true) :
    (l.filter (fun q => decide (q.1 = k))).length = 1 := by
  induction l with
  | nil => simp at hany
  | cons q rest ih =>
      simp only [List.map_cons, List.nodup_cons] at hnd
      by_cases hq : q.1 = k
      · have hrest : rest.filter (fun q => decide (q.1 = k)) = [] := by
          rw [List.filter_eq_nil_iff]
          intro a ha hak
          exact hnd.1 (by rw [hq, ← (by simpa using hak : a.1 = k)]
                          exact List.mem_map_of_mem Prod.fst ha)
        simp [List.filter_cons, hq, hrest]
      · simp only [List.any_cons, Bool.or_eq_true] at hany
        rcases hany with h1 | h2
        · exact absurd (by simpa using h1) hq
        · simp [List.filter_cons, hq, ih hnd.2 h2]

theorem lessOrEqual_iff_forall (a b : Clock) :
    lessOrEqual a b = true ↔ ∀ p ∈ a, p.2 ≤ clockGet b p.1 := by
  simp [lessOrEqual, List.all_eq_true]

theorem clockLookup_some_mem (c : Clock) (k : Actor) (x : Nat)
    (h : clockLookup c k = some x) : (k, x) ∈ c := by
  induction c with
  | nil => simp [clockLookup] at h
  | cons p rest ih =>
      by_cases hp : p.1 = k
      · simp [clockLookup, hp] at h
        subst hp
        subst h
        exact List.mem_cons_self _ _
      · simp [clockLookup, hp] at h
        exact List.mem_cons_of_mem _ (ih h)

theorem clockWF_lookup_of_mem (c : Clock) (hwf : clockWF c) (p : Actor × Nat)
    (hp : p ∈ c) : clockLookup c p.1 = some p.2 := by
  induction c with
  | nil => cases hp
  | cons q rest ih =>
      unfold clockWF at hwf
      simp only [List.map_cons, List.nodup_cons] at hwf
      rcases List.mem_cons.mp hp with he | hr
      · subst he
        simp [clockLookup]
      · have hq : q.1 ≠ p.1 := by
          intro he
          exact hwf.1 (he ▸ List.mem_map_of_mem Prod.fst hr)
        simp [clockLookup, hq]
        exact ih hwf.2 hr

theorem maybeSendChanges_frame {Doc Change : Type} (C : CRDT Doc Change)
    (s : SyncState Doc) :
    ((maybeSendChanges C s).1.ours = s.ours ∨
      (maybeSendChanges C s).1.ours =
        mergeWith largestWins s.ours ((C.clockOf s.doc).getD [])) ∧
    (maybeSendChanges C s).1.doc = s.doc ∧
    (maybeSendChanges C s).1.handlers = s.handlers ∧
    (maybeSendChanges C s).1.nextBind = s.nextBind := by
  unfold maybeSendChanges
  cases h : s.theirs with
  | none => simp
  | some tc =>
      by_cases hc : (C.getMissingChanges s.doc tc).length > 0 <;>
        simp [hc, sendChanges, updateClockOurs]

theorem assocSet_count_one (l : List (String × Nat)) (k : String) (v : Nat)
    (hnd : (l.map Prod.fst).Nodup) :
    ((assocSet l k v).filter (fun q => decide (q.1 = k))).length = 1 := by
  unfold assocSet
  by_cases h : l.any (fun q => decide (q.1 = k)) = true
  · rw [if_pos h, filter_key_map_set, List.length_map]
    exact filter_key_length_of_nodup l k hnd h
  · rw [if_neg h, List.filter_append]
    have hl : l.filter (fun q => decide (q.1 = k)) = [] := by
      rw [List.filter_eq_nil_iff]
      intro a ha hak
      have : l.any (fun q => decide (q.1 = k)) = true :=
        List.any_eq_true.mpr ⟨a, ha, hak⟩
      exact h this
    simp [hl]

/-!
The claim theorems.
-/

/-- C1: `receive({clock, changes})` merges a present clock into `theirs`
(leaving it alone when absent), applies present changes to the local document
via the observable wrapper's `applyChanges` (no message is sent in that
case), invokes `maybeSendChanges` when changes are absent, and in all cases
returns the state of the local document after these steps. -/
theorem receive_spec {Doc Change : Type} (C : CRDT Doc Change) (s : SyncState Doc)
    (m : RecvMessage Change) :
    (∀ c, m.clock = some c →
      (receive C s m).1.theirs = some (mergeWith largestWins (s.theirs.getD []) c)) ∧
    (m.clock = none → (receive C s m).1.theirs = s.theirs) ∧
    (∀ chs, m.changes = some chs →
      (receive C s m).1.doc = C.applyChanges s.doc chs ∧ (receive C s m).2.1 = []) ∧
    (m.changes = none →
      (receive C s m).1 = (maybeSendChanges C (match m.clock with
          | some c => updateClockTheirs s c
          | none => s)).1 ∧
      (receive C s m).2.1 = (maybeSendChanges C (match m.clock with
          | some c => updateClockTheirs s c
          | none => s)).2) ∧
    (receive C s m).2.2 = (receive C s m).1.doc := by
  have ht : ∀ s1 : SyncState Doc, (maybeSendChanges C s1).1.theirs = s1.theirs := by
    intro s1
    unfold maybeSendChanges
    cases h : s1.theirs with
    | none => simp [h]
    | some tc =>
        by_cases hc : (C.getMissingChanges s1.doc tc).length > 0 <;>
          simp [hc, h, sendChanges, updateClockOurs]
  obtain ⟨mc, mch⟩ := m
  cases mc <;> cases mch <;>
    simp [receive, updateClockTheirs, ht]

/-- Witness for C1: a concrete message carrying both a clock and a change
against the counter CRDT. -/
theorem receive_spec_witness :
    (receive natDocCRDT (initSync 1)
        { clock := some [("b", 2)], changes := some [()] }).1.theirs =
      some (mergeWith largestWins [] [("b", 2)]) ∧
    (receive natDocCRDT (initSync 1)
        { clock := some [("b", 2)], changes := some [()] }).1.doc = 2 := by
  have h := receive_spec natDocCRDT (initSync 1)
    { clock := some [("b", 2)], changes := some [()] }
  refine ⟨h.1 _ rfl, ?_⟩
  rw [(h.2.2.1 [()] rfl).1]
  rfl

/-- C2: `validateDoc(c)` fails with the no-clock error exactly when `c` is
absent, otherwise fails with the old-clock error exactly when `c` does not
dominate `ours`, and succeeds otherwise; when it fails, `open` and
`docChanged` leave the state unchanged and send nothing. -/
theorem validateDoc_spec {Doc Change : Type} (C : CRDT Doc Change) (s : SyncState Doc) :
    (∀ c0, validateDoc s c0 = .error .noClock ↔ c0 = none) ∧
    (∀ c, validateDoc s (some c) = .error .oldClock ↔ lessOrEqual s.ours c = false) ∧
    (∀ c, validateDoc s (some c) = .ok () ↔ lessOrEqual s.ours c = true) ∧
    (∀ e, validateDoc s (C.clockOf s.doc) = .error e →
      openSync C s = (s, [], some e) ∧ docChanged C s = (s, [], some e)) := by
  refine ⟨?_, ?_, ?_, ?_⟩
  · intro c0
    cases c0 with
    | none => simp [validateDoc]
    | some c => by_cases h : lessOrEqual s.ours c <;> simp [validateDoc, h]
  · intro c
    by_cases h : lessOrEqual s.ours c <;> simp [validateDoc, h]
  · intro c
    by_cases h : lessOrEqual s.ours c <;> simp [validateDoc, h]
  · intro e h
    constructor <;> simp [openSync, docChanged, h]

/-- Witness for C2: validating a document with no clock fails with the
no-clock error and leaves `open` without effect. -/
theorem validateDoc_spec_witness :
    validateDoc (initSync ()) (snapshotCRDT.clockOf ()) = .error .noClock ∧
    openSync snapshotCRDT (initSync ()) = (initSync (), [], some .noClock) := by
  have h := validateDoc_spec snapshotCRDT (initSync ())
  have h0 : validateDoc (initSync ()) (snapshotCRDT.clockOf ()) = .error .noClock :=
    (h.1 _).mpr rfl
  exact ⟨h0, (h.2.2.2 _ h0).1⟩

/-- C3: over any finite sequence of DocumentSync operations (open, receive,
docChanged, close), the `ours` clock after the whole sequence is pointwise
greater than or equal to its value after any prefix of the sequence; `ours`
is only ever updated by a pointwise-max merge, so this holds with no
error-freedom assumption (a throwing operation leaves `ours` untouched). -/
theorem ours_monotone {Doc Change : Type} (C : CRDT Doc Change) (s : SyncState Doc)
    (ops : List (SyncOp Change)) (n : Nat) :
    clockLe (runOps C s (ops.take n)).ours (runOps C s ops).ours := by
  have hsplit : runOps C s ops
      = runOps C (runOps C s (ops.take n)) (ops.drop n) := by
    unfold runOps
    rw [← List.foldl_append, List.take_append_drop]
  rw [hsplit]
  exact ours_le_runOps C _ _

/-- C4: the constructor sets `this.clock = { ours: Map(), theirs: Map() }`,
so a fresh DocumentSync has `ours = {}` as claimed but `theirs` equal to the
*empty clock*, not `undefined` — contradicting the claim (and the
implementation's own comment that the default `theirs` value is `undefined`,
which leaves the `undefined` guard in `maybeSendChanges` dead). The second
half of the claim holds: in any state whose `theirs` is unknown,
`maybeSendChanges` sends nothing and changes nothing. -/
theorem initSync_theirs_not_undefined {Doc Change : Type} (C : CRDT Doc Change)
    (d : Doc) (s : SyncState Doc) :
    (initSync d).ours = [] ∧
    (initSync d).theirs = some [] ∧
    maybeSendChanges C { s with theirs := none } = ({ s with theirs := none }, []) :=
  ⟨rfl, rfl, rfl⟩

/-- C5: `close()` does not unsubscribe the handler that `open()` registered:
`unregisterHandler(this.docChanged.bind(this))` is called with a fresh
function identity, so the registry still holds the identity registered by
`open()`, and a document change after `close()` still runs `docChanged`,
which still sends — here a concrete run in which the still-registered
handler emits a message after `close()`. -/
theorem close_does_not_unregister :
    (closeSync (openSync natDocCRDT (initSync 1)).1).handlers
      = (openSync natDocCRDT (initSync 1)).1.handlers ∧
    (openSync natDocCRDT (initSync 1)).1.handlers = [0] ∧
    (docChanged natDocCRDT (closeSync (openSync natDocCRDT (initSync 1)).1)).2.1
      = [{ clock := [("a", 1)], changes := some [()] }] := by
  refine ⟨?_, ?_, ?_⟩ <;> rfl

/-- C6: `maybeRequestChanges(c)` sends exactly the bare-clock message
`{clock: c}` (no changes field) precisely when `¬ lessOrEqual(c, ours)`, i.e.
when `c` has strictly advanced past the last-advertised clock, and sends
nothing otherwise. -/
theorem maybeRequestChanges_spec {Doc Change : Type} (s : SyncState Doc) (c : Clock) :
    ((maybeRequestChanges s c : List (Message Change))
        = [{ clock := c, changes := none }] ↔ lessOrEqual c s.ours = false) ∧
    ((maybeRequestChanges s c : List (Message Change)) = []
        ↔ lessOrEqual c s.ours = true) := by
  constructor <;> by_cases h : lessOrEqual c s.ours <;>
    simp [maybeRequestChanges, requestChanges, h]

/-- C7 counterexample: with a zero-valued entry, `lessOrEqual` holds in both
directions between two clocks that are not equal as mappings (they differ at
actor `a`: one binds it to `0`, the other leaves it absent). -/
theorem lessOrEqual_mutual_not_equal :
    lessOrEqual [("a", 0)] [] = true ∧
    lessOrEqual [] [("a", 0)] = true ∧
    clockLookup [("a", 0)] "a" ≠ clockLookup [] "a" := by
  decide

/-- C7 amended: for clocks with distinct keys, `lessOrEqual` in both
directions holds iff the clocks agree as total maps with absent keys read as
zero (equality as literal mappings additionally fails on zero-valued
entries, as the counterexample shows). -/
theorem lessOrEqual_mutual_iff_pointwise (a b : Clock)
    (ha : clockWF a) (hb : clockWF b) :
    (lessOrEqual a b = true ∧ lessOrEqual b a = true) ↔
      ∀ k, clockGet a k = clockGet b k := by
  constructor
  · rintro ⟨h1, h2⟩ k
    have h1 := (lessOrEqual_iff_forall a b).mp h1
    have h2 := (lessOrEqual_iff_forall b a).mp h2
    cases hx : clockLookup a k with
    | none =>
        cases hy : clockLookup b k with
        | none => simp [clockGet, hx, hy]
        | some y =>
            have hle := h2 (k, y) (clockLookup_some_mem b k y hy)
            simp only [clockGet, hx, Option.getD_none] at hle
            simp [clockGet, hx, hy, Nat.le_zero.mp hle]
    | some x =>
        cases hy : clockLookup b k with
        | none =>
            have hle := h1 (k, x) (clockLookup_some_mem a k x hx)
            simp only [clockGet, hy, Option.getD_none] at hle
            simp [clockGet, hx, hy, Nat.le_zero.mp hle]
        | some y =>
            have hxy := h1 (k, x) (clockLookup_some_mem a k x hx)
            have hyx := h2 (k, y) (clockLookup_some_mem b k y hy)
            simp only [clockGet, hy, Option.getD_some] at hxy
            simp only [clockGet, hx, Option.getD_some] at hyx
            simp [clockGet, hx, hy]
            exact le_antisymm hxy hyx
  · intro h
    constructor
    · rw [lessOrEqual_iff_forall]
      intro p hp
      have hl := clockWF_lookup_of_mem a ha p hp
      have : clockGet a p.1 = p.2 := by simp [clockGet, hl]
      rw [← this, h p.1]
    · rw [lessOrEqual_iff_forall]
      intro p hp
      have hl := clockWF_lookup_of_mem b hb p hp
      have : clockGet b p.1 = p.2 := by simp [clockGet, hl]
      rw [← this, ← h p.1]

/-- Witness for C7 amended: two equal singleton clocks. -/
theorem lessOrEqual_mutual_iff_pointwise_witness :
    lessOrEqual [("x", 1)] [("x", 1)] = true ∧
    lessOrEqual [("x", 1)] [("x", 1)] = true :=
  (lessOrEqual_mutual_iff_pointwise [("x", 1)] [("x", 1)]
    (by decide) (by decide)).mpr (fun _ => rfl)

/-- C10 counterexample: a bare-clock message makes `receive` modify `ours`:
the pull reaches `maybeSendChanges`, which sends and merges the document
clock into `ours`. -/
theorem receive_modifies_ours :
    (receive natDocCRDT (initSync 1) { clock := some [], changes := none }).1.ours
      = [("a", 1)] ∧
    (initSync (1 : Nat)).ours = [] :=
  ⟨rfl, rfl⟩

/-- C10 amended: `receive` leaves `ours` unchanged whenever the message
carries changes; on a bare-clock message it leaves `ours` unchanged unless
the pull triggers `maybeSendChanges` to send, in which case `ours` becomes
the pointwise-max merge with the local document clock (the sending-changes
path); the document is untouched when no changes arrive, and the handler
registry is never touched. -/
theorem receive_ours_frame {Doc Change : Type} (C : CRDT Doc Change)
    (s : SyncState Doc) (m : RecvMessage Change) :
    (m.changes ≠ none → (receive C s m).1.ours = s.ours) ∧
    (m.changes = none →
      (receive C s m).1.ours = s.ours ∨
      (receive C s m).1.ours =
        mergeWith largestWins s.ours ((C.clockOf s.doc).getD [])) ∧
    (m.changes = none → (receive C s m).1.doc = s.doc) ∧
    (receive C s m).1.handlers = s.handlers ∧
    (receive C s m).1.nextBind = s.nextBind := by
  obtain ⟨mc, mch⟩ := m
  cases mc with
  | none =>
      cases mch with
      | some chs => simp [receive]
      | none => simpa [receive] using maybeSendChanges_frame C s
  | some c =>
      cases mch with
      | some chs => simp [receive, updateClockTheirs]
      | none =>
          have h := maybeSendChanges_frame C (updateClockTheirs s c)
          simpa [receive, updateClockTheirs] using h

/-- Witness for C10 amended: a message carrying changes leaves `ours`
unchanged. -/
theorem receive_ours_frame_witness :
    (receive natDocCRDT (initSync 1) { clock := none, changes := some [()] }).1.ours
      = (initSync (1 : Nat)).ours :=
  (receive_ours_frame natDocCRDT (initSync 1)
    { clock := none, changes := some [()] }).1 (by simp)

/-- A StoreManager holding one listener (id 7) and no connections. -/
def smWithListener : SMState :=
  { connRegistry := [], connections := [], repo := true, store := true,
    listeners := [7], emitted := [], delivered := [] }

/-- A StoreManager holding one open connection recorded under peer `p`. -/
def smOneConn : SMState :=
  { connRegistry := [false], connections := [("p", 0)], repo := true,
    store := true, listeners := [], emitted := [], delivered := [] }

/-- C8 counterexample: a listener registered when `close()` is called never
receives the CLOSE event — `removeAllListeners()` runs before
`emit('close')`, so the emission reaches an empty listener list. -/
theorem smClose_no_delivery :
    smWithListener.listeners = [7] ∧
    (smClose smWithListener).emitted = [SMEvent.closeEv] ∧
    (smClose smWithListener).delivered = [] :=
  ⟨rfl, rfl, rfl⟩

/-- C8 amended: `close()` closes every Connection it owns (every recorded
registry slot is flagged closed), leaves the connections map empty, releases
the Repository and the store, and emits CLOSE last — but because
`removeAllListeners()` runs first, the listener list is empty by then and no
registered listener is invoked with CLOSE. -/
theorem smClose_spec (m : SMState) (p : String) (cid : Nat)
    (hp : connLookup m.connections p = some cid)
    (hcid : cid < m.connRegistry.length) :
    (smClose m).connRegistry.get? cid = some true ∧
    (smClose m).connections = [] ∧
    (smClose m).repo = false ∧
    (smClose m).store = false ∧
    (smClose m).emitted = m.emitted ++ [SMEvent.closeEv] ∧
    (smClose m).listeners = [] ∧
    (smClose m).delivered = m.delivered := by
  have hmem : p ∈ m.connections.map Prod.fst := connLookup_mem_keys _ p cid hp
  have hclose := foldlRemovePeer_closes (m.connections.map Prod.fst)
    { m with listeners := [] } p cid hmem hp hcid
  have hframe := foldlRemovePeer_frame (m.connections.map Prod.fst)
    { m with listeners := [] }
  refine ⟨?_, rfl, rfl, rfl, ?_, ?_, ?_⟩
  · exact hclose
  · show _ ++ _ = _
    rw [hframe.2.1]
  · show (List.foldl removePeer _ _).listeners = []
    rw [hframe.1]
  · show (List.foldl removePeer _ _).delivered
        ++ (List.foldl removePeer _ _).listeners.map _ = _
    rw [hframe.2.2.1, hframe.1]
    simp

/-- Witness for C8 amended at a one-connection StoreManager. -/
theorem smClose_spec_witness :
    (smClose smOneConn).connRegistry.get? 0 = some true ∧
    (smClose smOneConn).connections = [] ∧
    (smClose smOneConn).repo = false := by
  have h := smClose_spec smOneConn "p" 0 rfl (by decide)
  exact ⟨h.1, h.2.1, h.2.2.1⟩

/-- C9 counterexample: adopting a peer whose peerId already has a recorded
Connection replaces the prior Connection without closing it: afterwards the
prior Connection's registry flag is still `false` (never closed) while the
map records only the new Connection. -/
theorem addPeer_does_not_close_prior :
    (addPeer smOneConn "p").connRegistry = [false, false] ∧
    connLookup (addPeer smOneConn "p").connections "p" = some 1 := by
  decide

/-- C9 amended: when `addPeer` adopts a peer whose peerId already has a
recorded Connection, the prior Connection is overwritten *without* being
closed (no existing registry flag changes), and after adoption exactly one
Connection is recorded under that peerId — the newly constructed one. -/
theorem addPeer_spec (m : SMState) (p : String)
    (hs : m.store = true) (hr : m.repo = true)
    (hnd : (m.connections.map Prod.fst).Nodup) :
    connLookup (addPeer m p).connections p = some m.connRegistry.length ∧
    (addPeer m p).connRegistry.take m.connRegistry.length = m.connRegistry ∧
    ((addPeer m p).connections.filter (fun q => decide (q.1 = p))).length = 1 := by
  unfold addPeer
  rw [hs, hr]
  simp only [Bool.and_self, if_true, smEmit]
  refine ⟨connLookup_assocSet _ _ _, ?_, assocSet_count_one _ _ _ hnd⟩
  exact List.take_left _ _

/-- Witness for C9 amended at a duplicate-peer adoption. -/
theorem addPeer_spec_witness :
    connLookup (addPeer smOneConn "p").connections "p" = some 1 ∧
    ((addPeer smOneConn "p").connections.filter
        (fun q => decide (q.1 = "p"))).length = 1 := by
  have h := addPeer_spec smOneConn "p" rfl rfl (by decide)
  exact ⟨h.1, h.2.2⟩

end Cevitxe
